import Mathlib

/-!
Verification of the tarsk replication and discovery subsystem.

This file gives a shallow embedding of the replication core of the
repository (the wire codecs in src/serialization.rs and
src/controller/mod.rs, the peer registry in src/controller/registry.rs,
the sync loops in src/controller/sync.rs and src/controller.rs, and the
event hub in src/controller.rs and src/main.rs), and proves the testable
properties stated in the design document about those functions.

Conventions of the embedding:
  - Rust u8 is `Fin 256`; byte buffers are `List Byte`.
  - Fallible Rust functions returning anyhow Result are embedded as
    `Except String`; a Rust panic (for example an out of bounds slice)
    is embedded as `Option.none` of an explicitly partial operation.
  - Stateful code is embedded as explicit state passing: the registry
    peer list is a `List Addr`, the event queue a `List Event`, and each
    background loop iteration is a function from its inputs (network
    outcomes) to the state updates, log lines and events it produces.
  - External collaborators that the spec declares out of scope (the
    automerge engine, serde_json, std UTF-8 decoding and socket-address
    parsing) enter as parameters of the embedding, with their documented
    contracts as explicit hypotheses where a theorem needs them.
-/

namespace Tarsk

/-- A Rust u8. -/
abbrev Byte := Fin 256

/-- automerge ChangeHash: a fixed-width (32-byte) opaque identifier.
Equality is bytewise. -/
abbrev ChangeHash := { l : List Byte // l.length = 32 }

/-- SyncEvent from src/controller.rs and src/controller/mod.rs: either a
completed pull (MergeCompleted) or a wrapped terminal input event; the
crossterm payload is abstracted to a `Nat`. -/
inductive Event
  | Pull
  | Terminal (payload : Nat)
deriving DecidableEq

namespace Serialization

/-- serialize_change_hashes from src/serialization.rs: concatenates the 32
raw bytes of each hash, in order, into one buffer. -/
def serialize_change_hashes : List ChangeHash → List Byte
  | [] => []
  | hash :: rest => hash.val ++ serialize_change_hashes rest

/-- The `chunk.try_into()` step of deserialize_change_hashes: converting a
byte slice into the fixed `[u8; 32]` array, which fails unless the slice
has exactly 32 bytes. -/
def tryIntoChunk (l : List Byte) : Except String ChangeHash :=
  if h : l.length = 32 then .ok ⟨l, h⟩
  else .error "could not convert slice to array"

/-- The loop of deserialize_change_hashes: for i in 0..len / 32, read the
32-byte slice starting at offset 32 * i. Successive slices are the take
and drop of the remaining buffer. -/
def readChunks : Nat → List Byte → Except String (List ChangeHash)
  | 0, _ => .ok []
  | Nat.succ n, bytes => do
    let hash ← tryIntoChunk (bytes.take 32)
    let rest ← readChunks n (bytes.drop 32)
    pure (hash :: rest)

/-- deserialize_change_hashes from src/serialization.rs: rejects buffers
whose length is not a multiple of CHANGE_HASH_WIDTH = 32, then splits the
buffer into consecutive 32-byte hashes. -/
def deserialize_change_hashes (bytes : List Byte) : Except String (List ChangeHash) :=
  if bytes.length % 32 ≠ 0 then
    .error ("Improper buf size " ++ toString bytes.length ++ ", must be divisible by 32")
  else
    readChunks (bytes.length / 32) bytes

theorem length_serialize_change_hashes (hs : List ChangeHash) :
    (serialize_change_hashes hs).length = 32 * hs.length := by
  induction hs with
  | nil => simp [serialize_change_hashes]
  | cons h t ih =>
    simp only [serialize_change_hashes, List.length_append, List.length_cons, ih, h.property]
    ring

theorem readChunks_serialize (hs : List ChangeHash) :
    readChunks hs.length (serialize_change_hashes hs) = .ok hs := by
  induction hs with
  | nil => rfl
  | cons h t ih =>
    obtain ⟨l, hl⟩ := h
    have htake : (l ++ serialize_change_hashes t).take 32 = l := by
      rw [← hl]; exact List.take_left l (serialize_change_hashes t)
    have hdrop : (l ++ serialize_change_hashes t).drop 32 = serialize_change_hashes t := by
      rw [← hl]; exact List.drop_left l (serialize_change_hashes t)
    show readChunks (t.length + 1) (l ++ serialize_change_hashes t) = .ok (⟨l, hl⟩ :: t)
    simp [readChunks, htake, hdrop, tryIntoChunk, hl, ih, Except.bind]
    rfl

/-- C1: for every sequence of ChangeHash values H, including the empty
sequence, decoding the encoding of H succeeds and yields exactly H:
deserialize_change_hashes (serialize_change_hashes H) = ok H. -/
theorem change_hashes_roundtrip (H : List ChangeHash) :
    deserialize_change_hashes (serialize_change_hashes H) = .ok H := by
  unfold deserialize_change_hashes
  rw [length_serialize_change_hashes]
  have hmod : 32 * H.length % 32 = 0 := Nat.mul_mod_right 32 H.length
  have hdiv : 32 * H.length / 32 = H.length :=
    Nat.mul_div_cancel_left H.length (by norm_num)
  simp [hmod, hdiv, readChunks_serialize]

/-- C6: on every byte sequence whose length is not a multiple of 32,
deserialize_change_hashes returns the improper-buf-size error; being a
total Lean function of the buffer it neither diverges nor produces a
partial result. -/
theorem deserialize_change_hashes_bad_length (bytes : List Byte)
    (h : bytes.length % 32 ≠ 0) :
    deserialize_change_hashes bytes =
      .error ("Improper buf size " ++ toString bytes.length ++ ", must be divisible by 32") := by
  simp [deserialize_change_hashes, h]

/-- Witness for C6 at the concrete one-byte buffer, whose length 1 is not a
multiple of 32. -/
theorem deserialize_change_hashes_bad_length_witness :
    ([(0 : Byte)].length % 32 ≠ 0) ∧
    deserialize_change_hashes [(0 : Byte)] =
      .error ("Improper buf size " ++ toString [(0 : Byte)].length ++ ", must be divisible by 32") :=
  ⟨by decide, deserialize_change_hashes_bad_length [(0 : Byte)] (by decide)⟩

/-- serialize_changes from src/serialization.rs: the batch is mapped
through the automerge conversion Change::decode into ExpandedChange and
the resulting vector is handed to serde_json::to_string, whose output
string is returned as its bytes. The automerge conversion `decode` and
the serde encoder `json_to_string` are the external collaborators the
spec places out of scope, so they are parameters of the embedding; the
wire type `Wire` stands for the produced byte buffer. -/
def serialize_changes {Change ExpandedChange Wire : Type}
    (decode : Change → ExpandedChange) (json_to_string : List ExpandedChange → Wire)
    (changes : List Change) : Wire :=
  json_to_string (changes.map decode)

/-- deserialize_changes from src/serialization.rs: the bytes are parsed by
serde_json::from_str into a vector of ExpandedChange, which is mapped back
through the automerge conversion ExpandedChange::into. `json_from_str`
(covering the UTF-8 view of the bytes plus the JSON parse, either of which
may fail) and `into` are the external collaborators, as parameters. -/
def deserialize_changes {Change ExpandedChange Wire : Type}
    (into : ExpandedChange → Change)
    (json_from_str : Wire → Except String (List ExpandedChange))
    (bytes : Wire) : Except String (List Change) :=
  (json_from_str bytes).map (fun changes => changes.map into)

/-- C2: for every sequence of Changes, including the empty sequence,
deserialize_changes (serialize_changes c) succeeds and yields c, given the
documented contracts of the external collaborators: serde parsing inverts
serde printing on vectors of ExpandedChange, and the automerge conversion
into inverts decode. In particular at c = [] the encoded empty batch
decodes to the empty sequence rather than an error. -/
theorem changes_roundtrip {Change ExpandedChange Wire : Type}
    (decode : Change → ExpandedChange) (into : ExpandedChange → Change)
    (json_to_string : List ExpandedChange → Wire)
    (json_from_str : Wire → Except String (List ExpandedChange))
    (hjson : ∀ l, json_from_str (json_to_string l) = .ok l)
    (hinto : ∀ c, into (decode c) = c) (changes : List Change) :
    deserialize_changes into json_from_str
      (serialize_changes decode json_to_string changes) = .ok changes := by
  have hmap : ∀ cs : List Change, (cs.map decode).map into = cs := by
    intro cs
    induction cs with
    | nil => rfl
    | cons c t ih => simp [hinto, ih]
  simp [serialize_changes, deserialize_changes, hjson, Except.map, hmap]

/-- Witness for C2: the external-collaborator contracts are discharged at
a concrete instantiation (changes and expanded changes both `Nat`, the
identity conversions, the identity serde codec on the wire type
`List Nat`), and the round trip is evaluated at the concrete batch
[1, 2, 3] and at the empty batch. -/
theorem changes_roundtrip_witness :
    deserialize_changes (id : Nat → Nat)
      (fun w => (Except.ok w : Except String (List Nat)))
      (serialize_changes id id [1, 2, 3]) = .ok [1, 2, 3] ∧
    deserialize_changes (id : Nat → Nat)
      (fun w => (Except.ok w : Except String (List Nat)))
      (serialize_changes id id ([] : List Nat)) = .ok [] :=
  ⟨changes_roundtrip id id id (fun w => Except.ok w) (fun _ => rfl) (fun _ => rfl) [1, 2, 3],
   changes_roundtrip id id id (fun w => Except.ok w) (fun _ => rfl) (fun _ => rfl) []⟩

end Serialization

namespace Registry

/-- An HTTP response from src/controller/registry.rs: a status code and a
body, the body abstracted to the string handed to Body::from. -/
structure Response where
  status : Nat
  body : String
deriving DecidableEq

variable {Addr : Type} [DecidableEq Addr]

/-- The peer-list update inside register_peer (the write-locked block):
push the parsed address onto the peers vector only if it is not already
contained. The address type is abstract with decidable equality, matching
bytewise SocketAddr equality. -/
def addPeer (peers : List Addr) (socket_addr : Addr) : List Addr :=
  if socket_addr ∈ peers then peers else peers ++ [socket_addr]

/-- The peer list produced by a sequence of successful register_peer
calls starting from the empty registry of Registry::default. -/
def registerAll (calls : List Addr) : List Addr :=
  List.foldl addPeer [] calls

/-- get_peers from src/controller/registry.rs: renders the current peer
vector, in order, with status 200; the list of addresses it exposes is
the vector itself. -/
def get_peers (peers : List Addr) : List Addr :=
  peers

/-- register_peer from src/controller/registry.rs: the raw body bytes are
first checked to be valid UTF-8 (else status 400), then parsed as a
socket address (else status 400); on success the address is added to the
peer list if absent and status 200 is returned with the raw address text
echoed as the body. `utf8_decode` (std str::from_utf8) and
`parse_socket_addr` (std SocketAddr::from_str) are external std
collaborators, taken as parameters. -/
def register_peer (utf8_decode : List Byte → Option String)
    (parse_socket_addr : String → Option Addr)
    (peers : List Addr) (raw_socket_addr : List Byte) : List Addr × Response :=
  match utf8_decode raw_socket_addr with
  | none => (peers, ⟨400, "Provided socket addr is not valid utf8"⟩)
  | some s =>
    match parse_socket_addr s with
    | none => (peers, ⟨400, "Invalid socket " ++ s⟩)
    | some socket_addr => (addPeer peers socket_addr, ⟨200, s⟩)

theorem mem_addPeer (peers : List Addr) (b a : Addr) :
    a ∈ addPeer peers b ↔ a ∈ peers ∨ a = b := by
  by_cases h : b ∈ peers
  · simp only [addPeer, if_pos h]
    constructor
    · exact fun ha => Or.inl ha
    · rintro (ha | rfl)
      · exact ha
      · exact h
  · simp [addPeer, if_neg h]

theorem nodup_addPeer (peers : List Addr) (b : Addr) (h : peers.Nodup) :
    (addPeer peers b).Nodup := by
  by_cases hb : b ∈ peers
  · simpa [addPeer, if_pos hb] using h
  · rw [addPeer, if_neg hb, ← List.concat_eq_append]
    exact List.Nodup.concat hb h

theorem registerAll_invariant (calls : List Addr) (peers : List Addr)
    (h : peers.Nodup) :
    (List.foldl addPeer peers calls).Nodup ∧
      (∀ a : Addr, a ∈ List.foldl addPeer peers calls ↔ a ∈ peers ∨ a ∈ calls) := by
  induction calls generalizing peers with
  | nil => simpa using h
  | cons c t ih =>
    obtain ⟨hn, hm⟩ := ih (addPeer peers c) (nodup_addPeer peers c h)
    refine ⟨hn, fun a => ?_⟩
    rw [List.foldl_cons, hm a, mem_addPeer]
    simp [or_assoc]

/-- C4: for every sequence of register_peer calls the peer list holds no
duplicates (so registering the same address twice leaves exactly one
entry), get_peers exposes exactly the set of addresses ever registered,
and for reordered call sequences the exposed peer lists are permutations
of each other (order of registration only permutes the list). -/
theorem registry_dedup (calls calls₂ : List Addr) (hperm : calls.Perm calls₂) :
    (get_peers (registerAll calls)).Nodup ∧
    (∀ a : Addr, a ∈ get_peers (registerAll calls) ↔ a ∈ calls) ∧
    (get_peers (registerAll calls)).Perm (get_peers (registerAll calls₂)) := by
  obtain ⟨hn, hm⟩ := registerAll_invariant calls [] List.nodup_nil
  obtain ⟨hn₂, hm₂⟩ := registerAll_invariant calls₂ [] List.nodup_nil
  have hmem : ∀ a : Addr, a ∈ registerAll calls ↔ a ∈ calls := by
    intro a
    rw [registerAll, hm a]
    simp
  have hmem₂ : ∀ a : Addr, a ∈ registerAll calls₂ ↔ a ∈ calls₂ := by
    intro a
    rw [registerAll, hm₂ a]
    simp
  refine ⟨hn, hmem, ?_⟩
  rw [get_peers, get_peers, registerAll, registerAll,
    List.perm_ext_iff_of_nodup hn hn₂]
  intro a
  rw [hm a, hm₂ a]
  simpa using hperm.mem_iff

/-- Witness for C4 at the concrete call sequence [1, 2, 1] and the
reordering [1, 1, 2]. -/
theorem registry_dedup_witness :
    ([1, 2, 1] : List Nat).Perm [1, 1, 2] ∧
    (get_peers (registerAll ([1, 2, 1] : List Nat))).Nodup ∧
    ((2 : Nat) ∈ get_peers (registerAll ([1, 2, 1] : List Nat)) ↔ (2 : Nat) ∈ [1, 2, 1]) ∧
    (get_peers (registerAll ([1, 2, 1] : List Nat))).Perm
      (get_peers (registerAll ([1, 1, 2] : List Nat))) :=
  ⟨by decide,
   (registry_dedup [1, 2, 1] [1, 1, 2] (by decide)).1,
   (registry_dedup [1, 2, 1] [1, 1, 2] (by decide)).2.1 2,
   (registry_dedup [1, 2, 1] [1, 1, 2] (by decide)).2.2⟩

/-- C5: register_peer answers every request with either status 400 or
status 200 (it is a total function of the body, so no malformed input can
make it abort); the status is 400 exactly when the body is not valid
UTF-8 or the decoded text does not parse as a socket address; and on the
successful path the response is 200 with the address text echoed back and
the parsed address added to the peer set. -/
theorem register_peer_http_contract (utf8_decode : List Byte → Option String)
    (parse_socket_addr : String → Option Addr)
    (peers : List Addr) (raw : List Byte) :
    ((register_peer utf8_decode parse_socket_addr peers raw).2.status = 400 ∨
      (register_peer utf8_decode parse_socket_addr peers raw).2.status = 200) ∧
    ((register_peer utf8_decode parse_socket_addr peers raw).2.status = 400 ↔
      utf8_decode raw = none ∨
        ∃ s, utf8_decode raw = some s ∧ parse_socket_addr s = none) ∧
    (∀ s a, utf8_decode raw = some s → parse_socket_addr s = some a →
      (register_peer utf8_decode parse_socket_addr peers raw).2.status = 200 ∧
      (register_peer utf8_decode parse_socket_addr peers raw).2.body = s ∧
      (register_peer utf8_decode parse_socket_addr peers raw).1 = addPeer peers a) := by
  rcases hu : utf8_decode raw with _ | s
  · simp [register_peer, hu]
  · rcases hp : parse_socket_addr s with _ | a
    · simp [register_peer, hu, hp]
      intro s₁ a hs
      subst hs
      simp [hp]
    · simp [register_peer, hu, hp]
      intro s₁ a₁ hs hp₁
      subst hs
      rw [hp] at hp₁
      injection hp₁ with ha
      subst ha
      exact ⟨rfl, rfl⟩

/-- Witness for C5 at a concrete decoder, parser and request body: the
all-accepting instantiation yields the 200 branch with the echoed body,
and the theorem is also applied on a 400 instance. -/
theorem register_peer_http_contract_witness :
    ((register_peer (fun _ => some "10.0.0.1:80") (fun s => some s.length)
        ([] : List Nat) []).2.status = 400 ∨
      (register_peer (fun _ => some "10.0.0.1:80") (fun s => some s.length)
        ([] : List Nat) []).2.status = 200) ∧
    ((register_peer (fun _ => some "10.0.0.1:80") (fun s => some s.length)
        ([] : List Nat) []).2.body = "10.0.0.1:80") ∧
    ((register_peer (fun _ => (none : Option String)) (fun s => some s.length)
        ([] : List Nat) []).2.status = 400) :=
  ⟨(register_peer_http_contract (fun _ => some "10.0.0.1:80") (fun s => some s.length)
      ([] : List Nat) []).1,
   ((register_peer_http_contract (fun _ => some "10.0.0.1:80") (fun s => some s.length)
      ([] : List Nat) []).2.2 "10.0.0.1:80" 11 rfl rfl).2.1,
   ((register_peer_http_contract (fun _ => (none : Option String)) (fun s => some s.length)
      ([] : List Nat) []).2.1).mpr (Or.inl rfl)⟩

end Registry

/-- The Rust slice expression l[i..]: defined exactly when i does not
exceed the length, in which case it is the suffix from offset i; starting
past the end aborts the thread (index out of bounds), modelled as none. -/
def rustSliceFrom {α : Type} (l : List α) (i : Nat) : Option (List α) :=
  if i ≤ l.length then some (l.drop i) else none

namespace SyncEngine

variable {Addr : Type} [DecidableEq Addr]

/-- The per-peer body of the discovery loop Sync::query_changes in
src/controller/sync.rs: a peer equal to the local address is skipped
silently; otherwise query_changes_from_peer runs, and a failing exchange
is logged and skipped. No event is sent for any individual peer. The
network outcome of the exchange with each peer is abstracted by
`sync_ok`. Returns the log lines the peer contributes. -/
def peerStep (local_addr : Addr) (sync_ok : Addr → Bool) (peer : Addr) : List String :=
  if peer = local_addr then []
  else if sync_ok peer then []
  else ["Failed to sync with peer"]

/-- One iteration of the loop in Sync::query_changes:
`registry_result` is the outcome of fetching and parsing the peer list
from the Registry (its two failure branches log and restart the loop
without reaching the peers); on the success branch every peer is visited
through `peerStep` and then a single Event.Pull is sent on the event
channel. Returns the log lines and the events sent this iteration. -/
def query_changes_cycle (local_addr : Addr) (sync_ok : Addr → Bool)
    (registry_result : Except String (List Addr)) : List String × List Event :=
  match registry_result with
  | .error e => (["Failed to get peers from registry: " ++ e], [])
  | .ok peers =>
    (peers.foldl (fun logs peer => logs ++ peerStep local_addr sync_ok peer) [],
      [Event.Pull])

/-- C3: in every iteration of the pull loop that reaches the peer
iteration, whatever peers the Registry returned and however many of the
exchanges succeed or fail, the events sent on the channel are exactly
[Event.Pull]: one MergeCompleted/Pull event per cycle, never one per
peer. -/
theorem merge_completed_once_per_cycle (local_addr : Addr) (sync_ok : Addr → Bool)
    (peers : List Addr) :
    (query_changes_cycle local_addr sync_ok (.ok peers)).2 = [Event.Pull] ∧
    ((query_changes_cycle local_addr sync_ok (.ok peers)).2).count Event.Pull = 1 :=
  ⟨rfl, rfl⟩

/-- The frontier Sync::query_changes_from_peer transmits
(src/controller/sync.rs): the argument handed to
serialize_change_hashes, namely database.get_heads() unmodified. -/
def query_frontier (heads : List ChangeHash) : List ChangeHash :=
  heads

/-- The frontier Controller::pull transmits (src/controller.rs): the
slice heads[1..] of database.get_heads(). -/
def pull_frontier (heads : List ChangeHash) : Option (List ChangeHash) :=
  rustSliceFrom heads 1

/-- Modelled from the spec: "the engine's implicit root/empty hash", the
sentinel the spec says is excluded from the transmitted frontier,
modelled as the all-zero hash. -/
def root_sentinel : ChangeHash :=
  ⟨List.replicate 32 0, by simp⟩

/-- A hash that is not the sentinel (first byte 1). -/
def nonsentinel_hash : ChangeHash :=
  ⟨1 :: List.replicate 31 0, by simp⟩

/-- Modelled from the spec: the frontier §4.4 claims a pulling node
transmits, namely its current heads() with the root/empty sentinel hash
excluded. -/
def spec_claimed_frontier (heads : List ChangeHash) : List ChangeHash :=
  heads.filter (fun h => decide (h ≠ root_sentinel))

/-- Counterexample to C7: when heads() is exactly the sentinel,
Sync::query_changes_from_peer still transmits the sentinel while the
claimed frontier excludes it; and Controller::pull on heads
[nonsentinel, sentinel] drops the non-sentinel first head and transmits
exactly the sentinel — a degenerate request is also made, since on heads
of length one it transmits the empty frontier. -/
theorem transmitted_frontier_counterexample :
    query_frontier [root_sentinel] ≠ spec_claimed_frontier [root_sentinel] ∧
    pull_frontier [nonsentinel_hash, root_sentinel] = some [root_sentinel] ∧
    pull_frontier [nonsentinel_hash] = some [] := by
  refine ⟨?_, rfl, rfl⟩
  decide

/-- C7 as amended: Sync::query_changes_from_peer transmits heads()
exactly as returned, excluding nothing, and Controller::pull transmits
heads() with its first element removed unconditionally — whether or not
that element is a sentinel — aborting when heads() is empty. -/
theorem transmitted_frontier_eq (heads : List ChangeHash) :
    query_frontier heads = heads ∧
    pull_frontier heads =
      (match heads with
        | [] => none
        | _ :: t => some t) := by
  refine ⟨rfl, ?_⟩
  cases heads with
  | nil => rfl
  | cons h t => simp [pull_frontier, rustSliceFrom]

/-- std io ErrorKind as the pull loop distinguishes it: connection
refused against every other kind. -/
inductive IoErrorKind
  | connectionRefused
  | otherIo (code : Nat)
deriving DecidableEq

/-- The outcome of one Controller::pull call: success, an io::Error of
some kind (the error downcasts), or any other anyhow error such as a
decode failure (the downcast fails). -/
inductive PullOutcome
  | ok
  | ioError (kind : IoErrorKind) (msg : String)
  | otherError (msg : String)

/-- Whether the loop body goes on to the next iteration or leaves the
loop. -/
inductive LoopControl
  | continueLoop
  | breakLoop
deriving DecidableEq

/-- One iteration of Controller::pull_thread in src/controller.rs: on a
connection-refused io::Error the body hits `continue` and logs nothing;
every other error is logged through logging::GLOBAL.error; the loop has
no break statement, so every branch proceeds to the next iteration.
Returns the loop control and the log lines of the iteration. -/
def pull_iteration : PullOutcome → LoopControl × List String
  | .ok => (.continueLoop, [])
  | .ioError .connectionRefused _ => (.continueLoop, [])
  | .ioError (.otherIo _) msg => (.continueLoop, ["Error while pulling: " ++ msg])
  | .otherError msg => (.continueLoop, ["Error while pulling: " ++ msg])

/-- C8: a connection-refused failure is retried on the next iteration
with no log line; every other failure is logged; and no outcome
whatsoever makes the loop terminate. -/
theorem pull_loop_error_handling (msg : String) (kind : IoErrorKind) :
    pull_iteration (.ioError .connectionRefused msg) = (.continueLoop, []) ∧
    (kind ≠ .connectionRefused →
      pull_iteration (.ioError kind msg) =
        (.continueLoop, ["Error while pulling: " ++ msg])) ∧
    (∀ o : PullOutcome, (pull_iteration o).1 = .continueLoop) := by
  refine ⟨rfl, ?_, ?_⟩
  · intro hk
    cases kind with
    | connectionRefused => exact absurd rfl hk
    | otherIo c => rfl
  · intro o
    cases o with
    | ok => rfl
    | ioError k m => cases k <;> rfl
    | otherError m => rfl

/-- Witness for C8 at concrete outcomes: a refused connection logs
nothing, a concrete other io failure logs the error, and the success
outcome also continues the loop. -/
theorem pull_loop_error_handling_witness :
    pull_iteration (.ioError .connectionRefused "conn") = (.continueLoop, []) ∧
    pull_iteration (.ioError (.otherIo 0) "boom") =
      (.continueLoop, ["Error while pulling: " ++ "boom"]) ∧
    (pull_iteration .ok).1 = .continueLoop :=
  ⟨(pull_loop_error_handling "conn" (.otherIo 0)).1,
   (pull_loop_error_handling "boom" (.otherIo 0)).2.1 (by decide),
   (pull_loop_error_handling "boom" (.otherIo 0)).2.2 .ok⟩

end SyncEngine

namespace EventHub

/-- Controller::push_event semantics (src/controller.rs): producers append
to the back of the VecDeque under the queue lock and wake one waiting
consumer. -/
def push_event (event_queue : List Event) (evt : Event) : List Event :=
  event_queue ++ [evt]

/-- Controller::get_event (src/controller.rs): the consumer waits on the
condition variable while the queue is empty — modelled as none — and
otherwise pops and returns the front (oldest) element together with the
remaining queue. -/
def get_event : List Event → Option (Event × List Event)
  | [] => none
  | evt :: rest => some (evt, rest)

/-- The sequence a consumer observes by calling get_event repeatedly
until the queue is empty. -/
def drain : List Event → List Event
  | [] => []
  | evt :: rest => evt :: drain rest

theorem foldl_push_event (es q : List Event) :
    List.foldl push_event q es = q ++ es := by
  induction es generalizing q with
  | nil => simp
  | cons e t ih => simp [push_event, ih]

/-- C9: the event hub is a blocking FIFO: get_event on the empty queue
blocks (returns no event yet); after any sequence of enqueues the first
get_event returns the oldest enqueued event; draining the queue returns
every event in exactly arrival order; and drain is literally the repeated
application of get_event. -/
theorem event_hub_fifo (es : List Event) (e : Event) :
    get_event ([] : List Event) = none ∧
    get_event (List.foldl push_event [] (e :: es)) = some (e, es) ∧
    drain (List.foldl push_event [] es) = es ∧
    (∀ q : List Event, drain q =
      (match get_event q with
        | none => []
        | some p => p.1 :: drain p.2)) := by
  have hdrain : ∀ q : List Event, drain q = q := by
    intro q
    induction q with
    | nil => rfl
    | cons x t ih => simp [drain, ih]
  refine ⟨rfl, ?_, ?_, ?_⟩
  · rw [foldl_push_event]
    rfl
  · rw [foldl_push_event, List.nil_append, hdrain]
  · intro q
    cases q with
    | nil => rfl
    | cons x t => rfl

/-- The argument main.rs SyncServer::serve_changes passes to
get_changes: the slice heads[1..] of the frontier the client sent. -/
def serve_changes_since_arg (heads : List ChangeHash) : Option (List ChangeHash) :=
  rustSliceFrom heads 1

/-- C10: the empty frontier is reachable — deserializing an empty buffer
succeeds with the empty hash list — and on it the slice heads[1..] is out
of bounds, so SyncServer::serve_changes aborts on a client that sends a
zero-hash frontier, and Controller::pull aborts when the local heads are
empty, instead of surfacing an error value. -/
theorem empty_heads_slice_out_of_bounds :
    Serialization.deserialize_change_hashes ([] : List Byte) = .ok [] ∧
    serve_changes_since_arg [] = none ∧
    SyncEngine.pull_frontier [] = none := by
  refine ⟨?_, rfl, rfl⟩
  simp [Serialization.deserialize_change_hashes]
  rfl

end EventHub

end Tarsk
